import Mathlib

/-!
# Buildkite exporter

A shallow embedding of `main.go` of the Buildkite exporter: the two GraphQL
calls (`fetchStateTypes`, `fetch`), the flattening of the aggregate response
into `PipelineStats`, and the Prometheus collector (`scrape`, `Collect`).

What the program takes from outside is explicit:

* the network is a function `net` from the ordinal of the call inside one
  scrape and the request to either an error or a response body;
* `strings.ToLower` is the function `ToLower`;
* the order in which `range` visits a Go map is the function `order`, which
  for the `i`-th pipeline edge lists the entries of its node map.  Go leaves
  this order unspecified; every run visits each entry once, which is the
  predicate `IsRange`;
* the part of `encoding/json` that `json.Unmarshal` runs on the four targets
  of the program is modelled on parsed JSON values (`Json`): field matching
  by exact or case-folded name, members decoded in document order into the
  existing value, `null` leaving structs, strings and ints alone, type
  mismatches recorded as the first saved error while decoding goes on.
-/

namespace Buildkite

/-! ## JSON values and Go errors -/

/-- A parsed JSON text.  Object members keep the order and the duplicates of
the document.  `num` is a number literal without fraction or exponent, `real`
any other number literal (kept as text). -/
inductive Json where
  | null
  | bool (b : Bool)
  | num (n : Int)
  | real (lit : String)
  | str (s : String)
  | arr (xs : List Json)
  | obj (kvs : List (String × Json))

/-- The name `encoding/json` gives to the kind of a value in an
`UnmarshalTypeError`. -/
def Json.kind : Json → String
  | .null => "null"
  | .bool _ => "bool"
  | .num _ => "number"
  | .real _ => "number"
  | .str _ => "string"
  | .arr _ => "array"
  | .obj _ => "object"

/-- The errors of the program: a failed HTTP exchange, a body that is not a
JSON text, a JSON value of the wrong kind for its Go target. -/
inductive GoError where
  | transport (msg : String)
  | syntaxError
  | unmarshalType (value : String)
  deriving DecidableEq, Repr

/-- A response body: `none` is a byte sequence that is not a valid JSON text,
`some j` the bytes of the JSON text `j`. -/
abbrev Body := Option Json

/-- The error slot of a decoder (`decodeState.savedError`). -/
abbrev Saved := Option GoError

/-- `decodeState.saveError`: only the first error is kept. -/
def saveError (saved : Saved) (err : GoError) : Saved :=
  match saved with
  | none => some err
  | some first => some first

/-- The width of the Go type `int`. -/
def intSize : Nat := 64

/-- The least value of `int`. -/
def minInt : Int := -(2 ^ (intSize - 1))

/-- The greatest value of `int`. -/
def maxInt : Int := 2 ^ (intSize - 1) - 1

/-! ## The fragment of `encoding/json` the program runs -/

/-- Case folding of one rune as `encoding/json` applies it to keys: ASCII
lower case to upper case, and the two non-ASCII runes that fold to ASCII
letters (U+017F to `S`, U+212A to `K`). -/
def foldRune (c : Char) : Char :=
  if 97 ≤ c.toNat ∧ c.toNat ≤ 122 then Char.ofNat (c.toNat - 32)
  else if c.toNat = 0x17F then 'S'
  else if c.toNat = 0x212A then 'K'
  else c

/-- The folded spelling of a key or field name. -/
def foldName (s : String) : List Char := s.data.map foldRune

/-- Whether a JSON key selects the struct field called `name` (its tag, or
its Go name): exactly, or after case folding. -/
def matchField (name key : String) : Bool :=
  key = name || foldName key = foldName name

/-- A decoder for a Go target of type `α`: the JSON value, the target's
current content and the saved error give the new content and saved error. -/
abbrev Decoder (α : Type) := Json → α → Saved → α × Saved

/-- Decoding into a `string`. -/
def stringValue : Decoder String
  | .str s, _, saved => (s, saved)
  | .null, v, saved => (v, saved)
  | j, v, saved => (v, saveError saved (.unmarshalType j.kind))

/-- Decoding into an `int`: an integer literal in range is stored, `null`
does nothing, anything else is a type error and leaves the target. -/
def intValue : Decoder Int
  | .num n, v, saved =>
    if minInt ≤ n ∧ n ≤ maxInt then (n, saved)
    else (v, saveError saved (.unmarshalType "number"))
  | .null, v, saved => (v, saved)
  | j, v, saved => (v, saveError saved (.unmarshalType j.kind))

/-- The members of an object decoded one after the other into a struct
whose only field is selected by `name` (the struct is identified with that
field); members with another key are skipped. -/
def objectInto {α : Type} (name : String) (dec : Decoder α) :
    List (String × Json) → α → Saved → α × Saved
  | [], v, saved => (v, saved)
  | (key, value) :: rest, v, saved =>
    if matchField name key then
      objectInto name dec rest (dec value v saved).1 (dec value v saved).2
    else objectInto name dec rest v saved

/-- Decoding into a struct with the single field `name`. -/
def structValue {α : Type} (name : String) (dec : Decoder α) : Decoder α
  | .obj kvs, v, saved => objectInto name dec kvs v saved
  | .null, v, saved => (v, saved)
  | j, v, saved => (v, saveError saved (.unmarshalType j.kind))

/-- A Go slice together with the elements of its backing array behind its
length (`spare`), which a later decode into the same slice picks up again. -/
structure Slice (α : Type) where
  elems : List α
  spare : List α

/-- The nil slice. -/
def Slice.nil {α : Type} : Slice α := ⟨[], []⟩

/-- The elements of an array decoded in turn into the successive elements of
the backing array, a fresh zero value where the backing array has ended. -/
def arrayInto {α : Type} (zero : α) (dec : Decoder α) :
    List Json → List α → Saved → List α × Saved
  | [], _, saved => ([], saved)
  | x :: xs, backing, saved =>
    let r := dec x (backing.headD zero) saved
    let rest := arrayInto zero dec xs backing.tail r.2
    (r.1 :: rest.1, rest.2)

/-- Decoding into a slice: an empty array gives a fresh empty slice, `null`
the nil slice, an array the decoded elements with the length of the array. -/
def sliceValue {α : Type} (zero : α) (dec : Decoder α) : Decoder (Slice α)
  | .arr [], _, saved => (Slice.nil, saved)
  | .arr (x :: xs), v, saved =>
    let r := arrayInto zero dec (x :: xs) (v.elems ++ v.spare) saved
    (⟨r.1, (v.elems ++ v.spare).drop (x :: xs).length⟩, r.2)
  | .null, _, saved => (Slice.nil, saved)
  | j, v, saved => (v, saveError saved (.unmarshalType j.kind))

/-- A Go `map[string]json.RawMessage` as its entries, one per key.  The
position of an entry carries no meaning: iteration goes through `order`. -/
abbrev GoMap := List (String × Json)

/-- The assignment `m[k] = v`. -/
def mapSet (m : GoMap) (k : String) (v : Json) : GoMap :=
  if m.any (fun e => e.1 = k) then m.map (fun e => if e.1 = k then (k, v) else e)
  else m ++ [(k, v)]

/-- The members of an object stored one after the other into a map; each
value is kept as it stands (`json.RawMessage`). -/
def mapInto : List (String × Json) → GoMap → GoMap
  | [], m => m
  | (key, value) :: rest, m => mapInto rest (mapSet m key value)

/-- Decoding into a `map[string]json.RawMessage`. -/
def mapValue : Decoder GoMap
  | .obj kvs, m, saved => (mapInto kvs m, saved)
  | .null, _, saved => ([], saved)
  | j, m, saved => (m, saveError saved (.unmarshalType j.kind))

/-- The function `json.Unmarshal(b, &v)` for a target decoded by `dec`: the
content of `v` afterwards and the returned error.  A body that is not a JSON
text leaves `v` untouched. -/
def Unmarshal {α : Type} (dec : Decoder α) (b : Body) (v : α) : α × Saved :=
  match b with
  | none => (v, some .syntaxError)
  | some j => dec j v none

/-! ## The program -/

/-- The type `BuildStat`: the count for a build state. -/
structure BuildStat where
  State : String
  Count : Int
  deriving DecidableEq, Repr

/-- The type `PipelineStats`: the stats of one pipeline. -/
structure PipelineStats where
  Slug : String
  Stats : List BuildStat
  deriving DecidableEq, Repr

/-- The type `graphQLRequest`, the value marshalled into the request body. -/
structure graphQLRequest where
  Query : String
  deriving DecidableEq, Repr

/-- The HTTP request `doGraphQlRequest` builds. -/
structure Request where
  method : String
  url : String
  header : List (String × String)
  payload : graphQLRequest
  deriving DecidableEq, Repr

/-- The type `Exporter`; the two Prometheus counters are their values. -/
structure Exporter where
  URL : String
  Organization : String
  Token : String
  totalScrapes : Nat
  scrapeErrors : Nat
  deriving DecidableEq, Repr

/-- The function `NewExporter`: both counters start at zero; the timeout
(in nanoseconds) is not kept. -/
def NewExporter (uri org token : String) (_timeout : Nat) : Exporter :=
  { URL := uri, Organization := org, Token := token, totalScrapes := 0, scrapeErrors := 0 }

/-- What a collector sends on its channel: a `buildsTotalDesc` sample, built
by `MustNewConstMetric` from a `float64` value (here always the value of an
integer) and the two label values, or one of the counters of the exporter
with its value. -/
inductive Metric where
  | buildsTotal (value : Int) (state pipeline : String)
  | totalScrapes (value : Nat)
  | scrapeErrors (value : Nat)
  deriving DecidableEq, Repr

/-- What the program takes from outside: the network (`http.NewRequest`,
`http.DefaultClient.Do` and `ioutil.ReadAll` for the call with the given
ordinal inside one scrape), `strings.ToLower`, and the order in which `range`
visits the node map of the edge with the given index. -/
structure World where
  net : Nat → Request → Except GoError Body
  ToLower : String → String
  order : Nat → GoMap → List (String × Json)

/-- Every `range` over a map visits each entry once, in some order. -/
def IsRange (order : Nat → GoMap → List (String × Json)) : Prop :=
  ∀ i m, (order i m).Perm m

/-- The request of `doGraphQlRequest`. -/
def graphQlRequest (url token query : String) : Request :=
  { method := "POST", url := url,
    header := [("Content-Type", "application/json"), ("Authorization", "Bearer " ++ token)],
    payload := ⟨query⟩ }

/-- The function `doGraphQlRequest`, as the `n`-th call of a scrape: the
body or the error, and the request handed to the network. -/
def doGraphQlRequest (w : World) (n : Nat) (url token query : String) :
    Except GoError Body × List Request :=
  (w.net n (graphQlRequest url token query), [graphQlRequest url token query])

/-- The introspection query of `fetchStateTypes`. -/
def stateTypesQuery : String :=
  "\n\t\x7b\n\t\t__type(name:\"BuildStates\") \x7b\n\t\t\tenumValues \x7b\n\t\t\t\tname\n\t\t\t\x7d\n\t\t\x7d\n\t\x7d\n\t"

/-- The decoder of the `body` of `fetchStateTypes`,
`struct{Data struct{Type struct{Values []struct{Name string}}}}` with the
tags `data`, `__type`, `enumValues`, `name`. -/
def stateTypesBody : Decoder (Slice String) :=
  structValue "data" (structValue "__type" (structValue "enumValues"
    (sliceValue "" (structValue "name" stringValue))))

/-- The loop of `fetchStateTypes` that appends each name to `result`. -/
def appendNames : List String → List String → List String
  | [], result => result
  | val :: rest, result => appendNames rest (result ++ [val])

/-- The function `fetchStateTypes`, with the requests it issued. -/
def fetchStateTypes (w : World) (e : Exporter) :
    Except GoError (List String) × List Request :=
  let r := doGraphQlRequest w 0 e.URL e.Token stateTypesQuery
  match r.1 with
  | .error err => (.error err, r.2)
  | .ok b =>
    match Unmarshal stateTypesBody b Slice.nil with
    | (_, some err) => (.error err, r.2)
    | (body, none) => (.ok (appendNames body.elems []), r.2)

/-- One pass of the loop that builds `statesQuery`. -/
def stateLine (ToLower : String → String) (state : String) : String :=
  ToLower state ++ ": builds(state: " ++ state ++ ") \x7b count \x7d\n"

/-- The loop of `fetch` that builds `statesQuery`. -/
def statesQueryLoop (ToLower : String → String) : List String → String → String
  | [], statesQuery => statesQuery
  | state :: rest, statesQuery =>
    statesQueryLoop ToLower rest (statesQuery ++ stateLine ToLower state)

/-- The template of the aggregate query up to its first verb. -/
def queryHead : String :=
  "\n\tquery BuildStatsQuery \x7b\n\t\torganization(slug: \""

/-- The template of the aggregate query between its two verbs. -/
def queryMiddle : String :=
  "\") \x7b\n\t\t\tpipelines(first: 100) \x7b\n\t\t\t\tcount\n\t\t\t\tpageInfo \x7b\n\t\t\t\t\thasNextPage\n\t\t\t\t\thasPreviousPage\n\t\t\t\t\x7d\n\t\t\t\tedges \x7b\n\t\t\t\t\tnode \x7b\n\t\t\t\t\t\tslug\n\t\t\t\t\t\t"

/-- The template of the aggregate query after its second verb. -/
def queryTail : String :=
  "\n\t\t\t\t\t\x7d\n\t\t\t\t\x7d\n\t\t\t\x7d\n\t\t\x7d\n\t\x7d\n\t"

/-- The aggregate query of `fetch` for an organization and a `statesQuery`:
the template with the two strings in place of its verbs. -/
def buildStatsQuery (organization statesQuery : String) : String :=
  queryHead ++ organization ++ queryMiddle ++ statesQuery ++ queryTail

/-- The decoder of the `body` of `fetch`,
`struct{Data struct{Organization struct{Pipelines struct{Edges []struct{Node map[string]json.RawMessage}}}}}`
with the tags `data`, `organization`, `pipelines`, `edges` and the untagged
field `Node`. -/
def buildStatsBody : Decoder (Slice GoMap) :=
  structValue "data" (structValue "organization" (structValue "pipelines"
    (structValue "edges" (sliceValue [] (structValue "Node" mapValue)))))

/-- The decoder of `state`, a `struct{ Count int }`. -/
def countState : Decoder Int := structValue "Count" intValue

/-- The inner loop of `fetch` over the entries of one node, in the order
they are visited; `state` is the count buffer shared by all passes. -/
def nodeLoop : List (String × Json) → PipelineStats → Int → PipelineStats × Int
  | [], pipeline, state => (pipeline, state)
  | (key, value) :: rest, pipeline, state =>
    if key = "slug" then
      nodeLoop rest
        { pipeline with Slug := (Unmarshal stringValue (some value) pipeline.Slug).1 } state
    else
      nodeLoop rest
        { pipeline with Stats := pipeline.Stats ++
            [⟨key, (Unmarshal countState (some value) state).1⟩] }
        (Unmarshal countState (some value) state).1

/-- The outer loop of `fetch` over the edges, from the edge with index `i`. -/
def edgeLoop (order : Nat → GoMap → List (String × Json)) :
    Nat → List GoMap → List PipelineStats → Int → List PipelineStats × Int
  | _, [], pipelines, state => (pipelines, state)
  | i, edge :: rest, pipelines, state =>
    edgeLoop order (i + 1) rest
      (pipelines ++ [(nodeLoop (order i edge) ⟨"", []⟩ state).1])
      (nodeLoop (order i edge) ⟨"", []⟩ state).2

/-- The function `fetch`, with the requests it issued. -/
def fetch (w : World) (e : Exporter) :
    Except GoError (List PipelineStats) × List Request :=
  let s := fetchStateTypes w e
  match s.1 with
  | .error err => (.error err, s.2)
  | .ok states =>
    let statesQuery := statesQueryLoop w.ToLower states ""
    let query := buildStatsQuery e.Organization statesQuery
    let r := doGraphQlRequest w 1 e.URL e.Token query
    match r.1 with
    | .error err => (.error err, s.2 ++ r.2)
    | .ok b =>
      let body := (Unmarshal buildStatsBody b Slice.nil).1
      (.ok (edgeLoop w.order 0 body.elems [] 0).1, s.2 ++ r.2)

/-- How many of the powers `2^53`, ..., `2^63` are at most `a`: the number
of low bits of `a` that do not fit the 53-bit significand of a `float64`,
for `a` below `2^64`. -/
def droppedBits (a : Nat) : Nat :=
  ((List.range 11).filter (fun k => 2 ^ (53 + k) ≤ a)).length

/-- The value of the `float64` nearest to the natural number `a` below
`2^64`: the dropped bits are rounded to nearest, ties to the even
significand. -/
def roundFloat64 (a : Nat) : Nat :=
  (if 2 ^ droppedBits a < 2 * (a % 2 ^ droppedBits a)
      ∨ (2 * (a % 2 ^ droppedBits a) = 2 ^ droppedBits a
          ∧ (a / 2 ^ droppedBits a) % 2 = 1)
    then a / 2 ^ droppedBits a + 1 else a / 2 ^ droppedBits a) * 2 ^ droppedBits a

/-- The conversion `float64(n)` of an `int`: the value of the result, which
is an integer. -/
def float64 (n : Int) : Int :=
  if n < 0 then -(roundFloat64 n.natAbs : Int) else (roundFloat64 n.natAbs : Int)

/-- The loop of `scrape` over the stats of one pipeline. -/
def sendStats (pipeline : PipelineStats) : List BuildStat → List Metric → List Metric
  | [], ch => ch
  | stat :: rest, ch =>
    sendStats pipeline rest
      (ch ++ [Metric.buildsTotal (float64 stat.Count) stat.State pipeline.Slug])

/-- The loop of `scrape` over the pipelines. -/
def sendPipelines : List PipelineStats → List Metric → List Metric
  | [], ch => ch
  | pipeline :: rest, ch => sendPipelines rest (sendStats pipeline pipeline.Stats ch)

/-- The function `scrape`: the exporter afterwards and the channel with
what was sent on it. -/
def scrape (w : World) (e : Exporter) (ch : List Metric) : Exporter × List Metric :=
  match (fetch w e).1 with
  | .error _ => ({ e with scrapeErrors := e.scrapeErrors + 1 }, ch)
  | .ok pipelines => (e, sendPipelines pipelines ch)

/-- The function `Collect`. -/
def Collect (w : World) (e : Exporter) (ch : List Metric) : Exporter × List Metric :=
  let r := scrape w e ch
  (r.1, r.2 ++ [Metric.totalScrapes r.1.totalScrapes, Metric.scrapeErrors r.1.scrapeErrors])

/-- The aggregate request of `fetch` for the discovered states. -/
def aggregateRequest (w : World) (e : Exporter) (states : List String) : Request :=
  graphQlRequest e.URL e.Token
    (buildStatsQuery e.Organization (statesQueryLoop w.ToLower states ""))

/-- The discovery request of `fetchStateTypes`. -/
def discoveryRequest (e : Exporter) : Request :=
  graphQlRequest e.URL e.Token stateTypesQuery

/-- A decoder whose stored value does not depend on the saved error. -/
def Blind {α : Type} (dec : Decoder α) : Prop :=
  ∀ j v s s', (dec j v s).1 = (dec j v s').1

/-! ## Reading a response -/

/-- The object with the members `kvs` has exactly one member that selects
the struct field `field`; that member is spelled `key` and holds `v`. -/
def HasField (field key : String) (kvs : List (String × Json)) (v : Json) : Prop :=
  kvs.filter (fun kv => matchField field kv.1) = [(key, v)]

/-- The members of an `enumValues` value: the elements of an array, none
for any other value. -/
def enumMembers : Json → List Json
  | .arr xs => xs
  | _ => []

/-- The name a fresh `struct{Name string}` holds after one member of
`enumValues` is decoded into it. -/
def memberName (m : Json) : String :=
  (structValue "name" stringValue m "" none).1

/-- The integer under the key `count` of an object, `0` where there is
none. -/
def nestedCount : Json → Int
  | .obj kvs =>
    match kvs.lookup "count" with
    | some (.num n) => n
    | _ => 0
  | _ => 0

/-- A node of a valid aggregate response: no key twice, a string under
`slug`, and under every other key an object whose only count member is
spelled `count` and holds an integer of the range of `int`. -/
def ValidNode (node : List (String × Json)) : Prop :=
  (node.map Prod.fst).Nodup
    ∧ (∃ slug, ("slug", Json.str slug) ∈ node)
    ∧ ∀ kv ∈ node, kv.1 ≠ "slug" →
        ∃ ck n, kv.2 = .obj ck ∧ HasField "Count" "count" ck (.num n)
          ∧ minInt ≤ n ∧ n ≤ maxInt

/-- Whether decoding a value into `state` stores a count: the value is an
object with a member selecting `Count` that holds an integer of the range of
`int`. -/
def storesCount : Json → Bool
  | .obj kvs => kvs.any (fun kv => matchField "Count" kv.1 &&
      (match kv.2 with
       | .num n => decide (minInt ≤ n ∧ n ≤ maxInt)
       | _ => false))
  | _ => false

/-- The entries of the non-slug keys of a node, in the order given. -/
def statEntries (entries : List (String × Json)) : List (String × Json) :=
  entries.filter (fun kv => kv.1 ≠ "slug")

/-- The non-slug entries of all edges from index `i` on, in the order in
which `fetch` processes them. -/
def processed (order : Nat → GoMap → List (String × Json)) :
    Nat → List GoMap → List (String × Json)
  | _, [] => []
  | i, edge :: rest => statEntries (order i edge) ++ processed order (i + 1) rest

/-- The stats produced from a run of non-slug entries by a count buffer
that starts at `state`. -/
def scanStats : List (String × Json) → Int → List BuildStat
  | [], _ => []
  | (key, value) :: rest, state =>
    ⟨key, (countState value state none).1⟩ :: scanStats rest (countState value state none).1

/-- The count buffer after a run of non-slug entries. -/
def lastState : List (String × Json) → Int → Int
  | [], state => state
  | (_, value) :: rest, state => lastState rest (countState value state none).1

/-- What `fetch` returns for one node of a valid response: the slug of the
node, and one stat per non-slug entry, in some order, holding the key and
the nested count. -/
def PipelineOf (node : List (String × Json)) (pipeline : PipelineStats) : Prop :=
  ("slug", Json.str pipeline.Slug) ∈ node
    ∧ pipeline.Stats.Perm ((statEntries node).map (fun kv => ⟨kv.1, nestedCount kv.2⟩))

/-- The edge `edge` of a response is an object whose only member selecting
the field `Node` is spelled `node` and holds the object `node`. -/
def EdgeOf (edge : Json) (node : List (String × Json)) : Prop :=
  ∃ ek, edge = Json.obj ek ∧ HasField "Node" "node" ek (.obj node)

/-- The number of positions of `text` at which `pat` starts. -/
def occurrencesFrom (pat : List Char) : List Char → Nat
  | [] => 0
  | c :: cs => (if pat.isPrefixOf (c :: cs) then 1 else 0) + occurrencesFrom pat cs

/-- The number of occurrences of the text `pat` in `text`. -/
def occurrences (pat text : String) : Nat :=
  occurrencesFrom pat.data text.data

/-- The text with which a `builds` field selecting a state begins. -/
def fieldText : String := "builds(state: "

/-! ## Concrete inputs -/

/-- An ASCII `strings.ToLower`. -/
def asciiToLower (s : String) : String := String.mk (s.data.map Char.toLower)

/-- An introspection response with the states `PASSED` and `FAILED`. -/
def demoStates : Json :=
  .obj [("data", .obj [("__type", .obj [("enumValues",
    .arr [.obj [("name", .str "PASSED")], .obj [("name", .str "FAILED")]])])])]

/-- The node of the pipeline `web` with 5 passed and 2 failed builds. -/
def webNode : List (String × Json) :=
  [("slug", .str "web"), ("passed", .obj [("count", .num 5)]),
   ("failed", .obj [("count", .num 2)])]

/-- An aggregate response whose only pipeline edge is `webNode`. -/
def demoStats : Json :=
  .obj [("data", .obj [("organization", .obj [("pipelines",
    .obj [("edges", .arr [.obj [("node", .obj webNode)]])])])])]

/-- A world that answers the first call with `demoStates` and the second
with `demoStats`, and ranges over a map in the order of its entries. -/
def demoWorld : World :=
  { net := fun n _ => if n = 0 then .ok (some demoStates) else .ok (some demoStats),
    ToLower := asciiToLower,
    order := fun _ m => m }

/-- A world whose network fails. -/
def downWorld : World :=
  { net := fun _ _ => .error (.transport "connection refused"),
    ToLower := asciiToLower,
    order := fun _ m => m }

/-- A world that answers the first call with `demoStates` and the second
with a body that is not JSON. -/
def garbledWorld : World :=
  { net := fun n _ => if n = 0 then .ok (some demoStates) else .ok none,
    ToLower := asciiToLower,
    order := fun _ m => m }

/-- An aggregate response whose only pipeline edge has 5 passed builds
and `null` for its failed builds. -/
def staleStats : Json :=
  .obj [("data", .obj [("organization", .obj [("pipelines",
    .obj [("edges", .arr [.obj [("node", .obj
      [("slug", .str "web"), ("passed", .obj [("count", .num 5)]),
       ("failed", .null)])]])])])])]

/-- A world that answers the second call with `staleStats` and ranges over
a map in the order of its entries. -/
def staleWorld : World :=
  { net := fun n _ => if n = 0 then .ok (some demoStates) else .ok (some staleStats),
    ToLower := asciiToLower,
    order := fun _ m => m }

/-- The world `demoWorld` with a `range` that starts at the third entry of
the map and wraps around. -/
def rotatedWorld : World :=
  { demoWorld with order := fun _ m => m.rotate 2 }

/-- The world `staleWorld` with a `range` that starts at the third entry of
the map and wraps around. -/
def rotatedStaleWorld : World :=
  { staleWorld with order := fun _ m => m.rotate 2 }

/-- An aggregate response whose only pipeline edge has
9007199254740993 passed builds (`2^53 + 1`). -/
def bigStats : Json :=
  .obj [("data", .obj [("organization", .obj [("pipelines",
    .obj [("edges", .arr [.obj [("node", .obj
      [("slug", .str "web"), ("passed", .obj [("count", .num 9007199254740993)])])]])])])])]

/-- A world that answers the second call with `bigStats`. -/
def bigWorld : World :=
  { net := fun n _ => if n = 0 then .ok (some demoStates) else .ok (some bigStats),
    ToLower := asciiToLower,
    order := fun _ m => m }

/-- An introspection response whose only state name carries the text of
two further fields. -/
def injectStates : Json :=
  .obj [("data", .obj [("__type", .obj [("enumValues",
    .arr [.obj [("name", .str "A) \x7b count \x7d b: builds(state: B")]])])])]

/-- A world that answers the first call with `injectStates`. -/
def injectWorld : World :=
  { net := fun n _ => if n = 0 then .ok (some injectStates) else .ok (some demoStats),
    ToLower := asciiToLower,
    order := fun _ m => m }

/-- An exporter as `NewExporter` returns it. -/
def demoExporter : Exporter := NewExporter "https://graphql.buildkite.com/v1" "acme" "token" 10000000000

/-! ## Loops as list functions -/

theorem appendNames_eq (vals result : List String) :
    appendNames vals result = result ++ vals := by
  induction vals generalizing result with
  | nil => simp [appendNames]
  | cons val rest ih => simp [appendNames, ih]

theorem foldl_append_eq (l : List String) (a : String) :
    l.foldl (fun r s => r ++ s) a = a ++ l.foldl (fun r s => r ++ s) "" := by
  induction l generalizing a with
  | nil => simp
  | cons x rest ih =>
    rw [List.foldl_cons, List.foldl_cons, ih (a ++ x), ih ("" ++ x)]
    simp [String.append_assoc]

theorem join_cons (x : String) (l : List String) :
    String.join (x :: l) = x ++ String.join l := by
  unfold String.join
  rw [List.foldl_cons, foldl_append_eq]
  simp

theorem statesQueryLoop_eq (ToLower : String → String) (states : List String) (acc : String) :
    statesQueryLoop ToLower states acc
      = acc ++ String.join (states.map (stateLine ToLower)) := by
  induction states generalizing acc with
  | nil => simp [statesQueryLoop, String.join]
  | cons state rest ih =>
    simp [statesQueryLoop, ih, join_cons, String.append_assoc]

theorem sendStats_eq (pipeline : PipelineStats) (stats : List BuildStat) (ch : List Metric) :
    sendStats pipeline stats ch
      = ch ++ stats.map
          (fun stat => Metric.buildsTotal (float64 stat.Count) stat.State pipeline.Slug) := by
  induction stats generalizing ch with
  | nil => simp [sendStats]
  | cons stat rest ih => simp [sendStats, ih]

theorem sendPipelines_eq (pipelines : List PipelineStats) (ch : List Metric) :
    sendPipelines pipelines ch
      = ch ++ pipelines.flatMap (fun pipeline => pipeline.Stats.map
          (fun stat => Metric.buildsTotal (float64 stat.Count) stat.State pipeline.Slug)) := by
  induction pipelines generalizing ch with
  | nil => simp [sendPipelines]
  | cons pipeline rest ih => simp [sendPipelines, ih, sendStats_eq]

theorem fetchStateTypes_requests (w : World) (e : Exporter) :
    (fetchStateTypes w e).2 = [discoveryRequest e] := by
  unfold fetchStateTypes doGraphQlRequest
  simp only []
  cases w.net 0 (graphQlRequest e.URL e.Token stateTypesQuery) with
  | error err => rfl
  | ok b =>
    simp only []
    split <;> rfl

theorem fetch_of_states (w : World) (e : Exporter) (states : List String)
    (h : (fetchStateTypes w e).1 = .ok states) :
    fetch w e =
      match w.net 1 (aggregateRequest w e states) with
      | .error err => (.error err, [discoveryRequest e, aggregateRequest w e states])
      | .ok b =>
        (.ok (edgeLoop w.order 0 (Unmarshal buildStatsBody b Slice.nil).1.elems [] 0).1,
          [discoveryRequest e, aggregateRequest w e states]) := by
  unfold fetch
  simp only [h, fetchStateTypes_requests, doGraphQlRequest, aggregateRequest]
  cases w.net 1 (graphQlRequest e.URL e.Token
      (buildStatsQuery e.Organization (statesQueryLoop w.ToLower states ""))) <;> rfl

theorem fetch_of_error (w : World) (e : Exporter) (err : GoError)
    (h : (fetchStateTypes w e).1 = .error err) :
    fetch w e = (.error err, [discoveryRequest e]) := by
  unfold fetch
  simp only [h, fetchStateTypes_requests]

/-! ## Decoding -/

theorem objectInto_skip {α : Type} (name : String) (dec : Decoder α)
    (kvs : List (String × Json)) (v : α) (saved : Saved)
    (h : kvs.filter (fun kv => matchField name kv.1) = []) :
    objectInto name dec kvs v saved = (v, saved) := by
  induction kvs with
  | nil => rfl
  | cons kv rest ih =>
    obtain ⟨key, value⟩ := kv
    by_cases hk : matchField name key = true
    · simp [List.filter, hk] at h
    · have hr : rest.filter (fun kv => matchField name kv.1) = [] := by
        simpa [List.filter, hk] using h
      simp [objectInto, hk, ih hr]

theorem objectInto_of_hasField {α : Type} (name key : String) (dec : Decoder α)
    (kvs : List (String × Json)) (value : Json) (v : α) (saved : Saved)
    (h : HasField name key kvs value) :
    objectInto name dec kvs v saved = dec value v saved := by
  unfold HasField at h
  induction kvs with
  | nil => simp at h
  | cons kv rest ih =>
    obtain ⟨k, x⟩ := kv
    by_cases hk : matchField name k = true
    · have h2 : (k, x) :: rest.filter (fun kv => matchField name kv.1) = [(key, value)] := by
        simpa [List.filter, hk] using h
      injection h2 with hhead htail
      injection hhead with h1 h3
      subst h3
      simp [objectInto, hk, objectInto_skip name dec rest _ _ htail]
    · have hr : rest.filter (fun kv => matchField name kv.1) = [(key, value)] := by
        simpa [List.filter, hk] using h
      simp [objectInto, hk, ih hr]

theorem structValue_of_hasField {α : Type} (name key : String) (dec : Decoder α)
    (kvs : List (String × Json)) (value : Json) (v : α) (saved : Saved)
    (h : HasField name key kvs value) :
    structValue name dec (.obj kvs) v saved = dec value v saved := by
  simp [structValue, objectInto_of_hasField name key dec kvs value v saved h]

theorem stringValue_blind : Blind stringValue := by
  intro j v s s'
  cases j <;> rfl

theorem intValue_blind : Blind intValue := by
  intro j v s s'
  cases j <;> simp [intValue]
  split <;> rfl

theorem mapValue_blind : Blind mapValue := by
  intro j v s s'
  cases j <;> rfl

theorem objectInto_blind {α : Type} (name : String) (dec : Decoder α) (hd : Blind dec)
    (kvs : List (String × Json)) (v : α) (s s' : Saved) :
    (objectInto name dec kvs v s).1 = (objectInto name dec kvs v s').1 := by
  induction kvs generalizing v s s' with
  | nil => rfl
  | cons kv rest ih =>
    obtain ⟨k, x⟩ := kv
    by_cases hk : matchField name k = true
    · simp only [objectInto, hk, if_true]
      rw [hd x v s s']
      exact ih _ _ _
    · simp only [objectInto, hk]
      exact ih _ _ _

theorem structValue_blind {α : Type} (name : String) (dec : Decoder α) (hd : Blind dec) :
    Blind (structValue name dec) := by
  intro j v s s'
  cases j <;> try rfl
  exact objectInto_blind name dec hd _ v s s'

theorem arrayInto_fresh {α : Type} (zero : α) (dec : Decoder α) (hd : Blind dec)
    (xs : List Json) (saved : Saved) :
    (arrayInto zero dec xs [] saved).1 = xs.map (fun x => (dec x zero none).1) := by
  induction xs generalizing saved with
  | nil => rfl
  | cons x rest ih =>
    simp only [arrayInto, List.headD_nil, List.tail_nil, List.map_cons]
    rw [ih, hd x zero saved none]

theorem sliceValue_fresh {α : Type} (zero : α) (dec : Decoder α) (hd : Blind dec)
    (xs : List Json) (saved : Saved) :
    (sliceValue zero dec (.arr xs) Slice.nil saved).1.elems
      = xs.map (fun x => (dec x zero none).1) := by
  cases xs with
  | nil => rfl
  | cons x rest =>
    simp only [sliceValue, Slice.nil, List.append_nil]
    exact arrayInto_fresh zero dec hd (x :: rest) saved

/-! ## Discovery -/

theorem stateTypesBody_of_path (top d t : List (String × Json)) (ev : Json)
    (hdata : HasField "data" "data" top (.obj d))
    (htype : HasField "__type" "__type" d (.obj t))
    (hvals : HasField "enumValues" "enumValues" t ev) :
    Unmarshal stateTypesBody (some (.obj top)) Slice.nil
      = sliceValue "" (structValue "name" stringValue) ev Slice.nil none := by
  unfold Unmarshal stateTypesBody
  simp only []
  rw [structValue_of_hasField _ _ _ _ _ _ _ hdata, structValue_of_hasField _ _ _ _ _ _ _ htype,
    structValue_of_hasField _ _ _ _ _ _ _ hvals]

theorem memberName_of_forall₂ (members : List Json) (names : List String)
    (h : List.Forall₂ (fun m n => ∃ mk, m = Json.obj mk ∧ HasField "name" "name" mk (.str n))
      members names) :
    members.map memberName = names := by
  induction h with
  | nil => rfl
  | cons hm _ ih =>
    obtain ⟨mk, rfl, hf⟩ := hm
    rw [List.map_cons, ih]
    congr 1
    unfold memberName
    rw [structValue_of_hasField _ _ _ _ _ _ _ hf]
    rfl

/-- C9: for every introspection response that decodes, `fetchStateTypes`
returns no error and the names held by the decoded members, in order.  When
the response is an object whose path `data`, `__type`, `enumValues` ends in
the value `ev`, these are the names of the members of `ev`, one per member
and in response order: the names themselves when every member is an object
with a string under `name`, and none when `ev` has no member. -/
theorem fetchStateTypes_names (w : World) (e : Exporter) (b : Body)
    (hnet : w.net 0 (discoveryRequest e) = .ok b)
    (hdec : (Unmarshal stateTypesBody b Slice.nil).2 = none) :
    (fetchStateTypes w e).1 = .ok (Unmarshal stateTypesBody b Slice.nil).1.elems
      ∧ ∀ top d t ev, b = some (.obj top) →
          HasField "data" "data" top (.obj d) →
          HasField "__type" "__type" d (.obj t) →
          HasField "enumValues" "enumValues" t ev →
          (fetchStateTypes w e).1 = .ok ((enumMembers ev).map memberName)
            ∧ ((enumMembers ev).map memberName).length = (enumMembers ev).length
            ∧ (enumMembers ev = [] → (fetchStateTypes w e).1 = .ok [])
            ∧ ∀ names, List.Forall₂
                (fun m n => ∃ mk, m = Json.obj mk ∧ HasField "name" "name" mk (.str n))
                (enumMembers ev) names →
                (fetchStateTypes w e).1 = .ok names := by
  have h1 : (fetchStateTypes w e).1 = .ok (Unmarshal stateTypesBody b Slice.nil).1.elems := by
    unfold fetchStateTypes doGraphQlRequest
    unfold discoveryRequest at hnet
    simp only [hnet]
    revert hdec
    cases Unmarshal stateTypesBody b Slice.nil with
    | mk body sv =>
      intro hdec
      simp only at hdec
      subst hdec
      simp [appendNames_eq]
  refine ⟨h1, ?_⟩
  intro top d t ev hb hdata htype hvals
  subst hb
  have hpath := stateTypesBody_of_path top d t ev hdata htype hvals
  have helems : (Unmarshal stateTypesBody (some (.obj top)) Slice.nil).1.elems
      = (enumMembers ev).map memberName := by
    rw [hpath]
    rw [hpath] at hdec
    cases ev with
    | arr xs =>
      rw [sliceValue_fresh "" _ (structValue_blind "name" _ stringValue_blind)]
      rfl
    | null => rfl
    | bool _ => simp [sliceValue, saveError] at hdec
    | num _ => simp [sliceValue, saveError] at hdec
    | real _ => simp [sliceValue, saveError] at hdec
    | str _ => simp [sliceValue, saveError] at hdec
    | obj _ => simp [sliceValue, saveError] at hdec
  rw [helems] at h1
  refine ⟨h1, by simp, ?_, ?_⟩
  · intro hnil
    rw [h1, hnil]
    rfl
  · intro names hnames
    rw [h1, memberName_of_forall₂ _ _ hnames]

theorem fetchStateTypes_names_witness :
    demoWorld.net 0 (discoveryRequest demoExporter) = .ok (some demoStates)
      ∧ (Unmarshal stateTypesBody (some demoStates) Slice.nil).2 = none
      ∧ (fetchStateTypes demoWorld demoExporter).1 = .ok ["PASSED", "FAILED"] :=
  ⟨rfl, rfl,
    ((fetchStateTypes_names demoWorld demoExporter (some demoStates) rfl rfl).2
      _ _ _ _ rfl rfl rfl rfl).2.2.2 ["PASSED", "FAILED"]
      (List.Forall₂.cons ⟨_, rfl, rfl⟩ (List.Forall₂.cons ⟨_, rfl, rfl⟩ List.Forall₂.nil))⟩

/-! ## A malformed aggregate response -/

/-- C5: when discovery succeeds and the aggregate call returns a body,
whatever the body, `fetch` returns no error: it returns the pipelines of the
edges that were decoded, none for a body that is not JSON, and `scrape`
leaves the exporter, and so its scrape-errors counter, as it was. -/
theorem fetch_ignores_decode_error (w : World) (e : Exporter) (ch : List Metric)
    (S : List String) (b : Body)
    (hS : (fetchStateTypes w e).1 = .ok S)
    (hnet : w.net 1 (aggregateRequest w e S) = .ok b) :
    (fetch w e).1
        = .ok (edgeLoop w.order 0 (Unmarshal buildStatsBody b Slice.nil).1.elems [] 0).1
      ∧ (b = none → (fetch w e).1 = .ok [])
      ∧ (scrape w e ch).1.scrapeErrors = e.scrapeErrors
      ∧ (scrape w e ch).1 = e := by
  have hf : (fetch w e).1
      = .ok (edgeLoop w.order 0 (Unmarshal buildStatsBody b Slice.nil).1.elems [] 0).1 := by
    rw [fetch_of_states w e S hS, hnet]
  refine ⟨hf, ?_, ?_, ?_⟩
  · intro hb
    rw [hf, hb]
    rfl
  · unfold scrape
    rw [hf]
  · unfold scrape
    rw [hf]

theorem fetch_ignores_decode_error_witness :
    (fetchStateTypes garbledWorld demoExporter).1 = .ok ["PASSED", "FAILED"]
      ∧ garbledWorld.net 1 (aggregateRequest garbledWorld demoExporter ["PASSED", "FAILED"])
          = .ok none
      ∧ (fetch garbledWorld demoExporter).1 = .ok []
      ∧ (scrape garbledWorld demoExporter []).1.scrapeErrors = demoExporter.scrapeErrors :=
  ⟨rfl, rfl,
    (fetch_ignores_decode_error garbledWorld demoExporter [] ["PASSED", "FAILED"] none
      rfl rfl).2.1 rfl,
    (fetch_ignores_decode_error garbledWorld demoExporter [] ["PASSED", "FAILED"] none
      rfl rfl).2.2.1⟩

/-! ## The loops of `fetch` -/

theorem scanStats_append (a b : List (String × Json)) (state : Int) :
    scanStats (a ++ b) state = scanStats a state ++ scanStats b (lastState a state) := by
  induction a generalizing state with
  | nil => rfl
  | cons kv rest ih =>
    obtain ⟨k, x⟩ := kv
    simp [scanStats, lastState, ih]

theorem scanStats_length (entries : List (String × Json)) (state : Int) :
    (scanStats entries state).length = entries.length := by
  induction entries generalizing state with
  | nil => rfl
  | cons kv rest ih =>
    obtain ⟨k, x⟩ := kv
    simp [scanStats, ih]

theorem statEntries_cons_slug (x : Json) (rest : List (String × Json)) :
    statEntries (("slug", x) :: rest) = statEntries rest := by
  simp [statEntries]

theorem statEntries_cons_other (k : String) (x : Json) (rest : List (String × Json))
    (hk : k ≠ "slug") :
    statEntries ((k, x) :: rest) = (k, x) :: statEntries rest := by
  simp [statEntries, hk]

theorem nodeLoop_scan (entries : List (String × Json)) (pipeline : PipelineStats)
    (state : Int) :
    (nodeLoop entries pipeline state).1.Stats
        = pipeline.Stats ++ scanStats (statEntries entries) state
      ∧ (nodeLoop entries pipeline state).2 = lastState (statEntries entries) state := by
  induction entries generalizing pipeline state with
  | nil => simp [nodeLoop, statEntries, scanStats, lastState]
  | cons kv rest ih =>
    obtain ⟨k, x⟩ := kv
    by_cases hk : k = "slug"
    · subst hk
      rw [statEntries_cons_slug]
      simp only [nodeLoop, if_true]
      exact ih _ state
    · rw [statEntries_cons_other k x rest hk]
      simp only [nodeLoop, hk, if_false, scanStats, lastState]
      have h := ih { pipeline with Stats := pipeline.Stats ++
          [⟨k, (Unmarshal countState (some x) state).1⟩] }
        (Unmarshal countState (some x) state).1
      simp only [Unmarshal] at h ⊢
      rw [h.1, h.2]
      simp

theorem edgeLoop_scan (order : Nat → GoMap → List (String × Json)) (edges : List GoMap)
    (i : Nat) (pipelines : List PipelineStats) (state : Int) :
    (edgeLoop order i edges pipelines state).1.flatMap PipelineStats.Stats
      = pipelines.flatMap PipelineStats.Stats ++ scanStats (processed order i edges) state := by
  induction edges generalizing i pipelines state with
  | nil => simp [edgeLoop, processed, scanStats]
  | cons edge rest ih =>
    simp only [edgeLoop, processed]
    rw [ih, scanStats_append, (nodeLoop_scan _ _ _).2]
    simp [(nodeLoop_scan (order i edge) ⟨"", []⟩ state).1]

theorem intValue_keep (x : Json) (state : Int) (saved : Saved)
    (h : (match x with
       | .num n => decide (minInt ≤ n ∧ n ≤ maxInt)
       | _ => false) = false) :
    (intValue x state saved).1 = state := by
  cases x <;> try rfl
  simp only [decide_eq_false_iff_not] at h
  simp [intValue, h]

theorem objectInto_keep (kvs : List (String × Json)) (state : Int) (saved : Saved)
    (h : storesCount (.obj kvs) = false) :
    (objectInto "Count" intValue kvs state saved).1 = state := by
  induction kvs generalizing saved with
  | nil => rfl
  | cons kv rest ih =>
    obtain ⟨k, x⟩ := kv
    simp only [storesCount, List.any_cons, Bool.or_eq_false_iff, Bool.and_eq_false_iff] at h
    obtain ⟨hhead, hrest⟩ := h
    have hr : storesCount (.obj rest) = false := hrest
    by_cases hk : matchField "Count" k = true
    · have hx := intValue_keep x state saved (by simpa [hk] using hhead)
      simp only [objectInto, hk, if_true]
      rw [objectInto_blind "Count" intValue intValue_blind rest _ _ saved, hx]
      exact ih saved hr
    · simp only [objectInto, hk]
      exact ih saved hr

theorem countState_keep (value : Json) (state : Int)
    (h : storesCount value = false) :
    (countState value state none).1 = state := by
  cases value <;> try rfl
  exact objectInto_keep _ state none h

theorem scanStats_get (entries : List (String × Json)) (state : Int) (i : Nat)
    (kv : String × Json) (h : entries[i]? = some kv) :
    ∃ stat, (scanStats entries state)[i]? = some stat ∧ stat.State = kv.1
      ∧ (storesCount kv.2 = false →
          (i = 0 → stat.Count = state)
            ∧ ∀ prev, 0 < i → (scanStats entries state)[i - 1]? = some prev →
                stat.Count = prev.Count) := by
  induction entries generalizing state i with
  | nil => simp at h
  | cons head rest ih =>
    obtain ⟨k, x⟩ := head
    cases i with
    | zero =>
      simp only [List.getElem?_cons_zero, Option.some.injEq] at h
      subst h
      refine ⟨⟨k, (countState x state none).1⟩, by simp [scanStats], rfl, ?_⟩
      intro hs
      exact ⟨fun _ => countState_keep x state hs, fun prev hpos => absurd hpos (by simp)⟩
    | succ j =>
      simp only [List.getElem?_cons_succ] at h
      obtain ⟨stat, hget, hstate, hcount⟩ := ih (countState x state none).1 j h
      refine ⟨stat, by simpa [scanStats] using hget, hstate, ?_⟩
      intro hs
      obtain ⟨hzero, hprev⟩ := hcount hs
      refine ⟨fun h0 => absurd h0 (by simp), ?_⟩
      intro prev _ hp
      cases j with
      | zero =>
        simp [scanStats] at hp
        rw [← hp]
        exact hzero rfl
      | succ n =>
        simp only [scanStats, Nat.add_sub_cancel, List.getElem?_cons_succ] at hp
        exact hprev prev (by simp) (by simpa using hp)

/-! ## The shared count buffer -/

/-- C10: for every aggregate response, the stats `fetch` returns, taken
over all pipelines in processing order, are one per non-slug entry
processed and carry its key as state; an entry whose value stores no count
(it is not an object with an integer count) yields a stat whose count is 0
when it is the first stat produced and otherwise the count of the stat
produced just before it, also when that one belongs to the previous
pipeline. -/
theorem fetch_stale_count (w : World) (e : Exporter) (S : List String) (b : Body)
    (hS : (fetchStateTypes w e).1 = .ok S)
    (hnet : w.net 1 (aggregateRequest w e S) = .ok b) :
    ∃ P, (fetch w e).1 = .ok P
      ∧ (P.flatMap PipelineStats.Stats).length
          = (processed w.order 0 (Unmarshal buildStatsBody b Slice.nil).1.elems).length
      ∧ ∀ i kv,
          (processed w.order 0 (Unmarshal buildStatsBody b Slice.nil).1.elems)[i]? = some kv →
          ∃ stat, (P.flatMap PipelineStats.Stats)[i]? = some stat ∧ stat.State = kv.1
            ∧ (storesCount kv.2 = false →
                (i = 0 → stat.Count = 0)
                  ∧ ∀ prev, 0 < i → (P.flatMap PipelineStats.Stats)[i - 1]? = some prev →
                      stat.Count = prev.Count) := by
  refine ⟨_, by rw [fetch_of_states w e S hS, hnet], ?_, ?_⟩
  · rw [edgeLoop_scan]
    simp [scanStats_length]
  · intro i kv hkv
    rw [edgeLoop_scan]
    simpa using scanStats_get _ 0 i kv hkv

theorem fetch_stale_count_witness :
    (fetchStateTypes staleWorld demoExporter).1 = .ok ["PASSED", "FAILED"]
      ∧ staleWorld.net 1 (aggregateRequest staleWorld demoExporter ["PASSED", "FAILED"])
          = .ok (some staleStats)
      ∧ ∃ P, (fetch staleWorld demoExporter).1 = .ok P
        ∧ (P.flatMap PipelineStats.Stats).length
            = (processed staleWorld.order 0
                (Unmarshal buildStatsBody (some staleStats) Slice.nil).1.elems).length
        ∧ ∀ i kv,
            (processed staleWorld.order 0
              (Unmarshal buildStatsBody (some staleStats) Slice.nil).1.elems)[i]? = some kv →
            ∃ stat, (P.flatMap PipelineStats.Stats)[i]? = some stat ∧ stat.State = kv.1
              ∧ (storesCount kv.2 = false →
                  (i = 0 → stat.Count = 0)
                    ∧ ∀ prev, 0 < i → (P.flatMap PipelineStats.Stats)[i - 1]? = some prev →
                        stat.Count = prev.Count) :=
  ⟨rfl, rfl, fetch_stale_count staleWorld demoExporter ["PASSED", "FAILED"]
    (some staleStats) rfl rfl⟩

/-! ## A valid aggregate response -/

theorem lookup_of_hasField (ck : List (String × Json)) (v : Json)
    (h : HasField "Count" "count" ck v) : ck.lookup "count" = some v := by
  unfold HasField at h
  induction ck with
  | nil => simp at h
  | cons kv rest ih =>
    obtain ⟨k, x⟩ := kv
    by_cases hk : matchField "Count" k = true
    · have h2 : (k, x) :: rest.filter (fun kv => matchField "Count" kv.1) = [("count", v)] := by
        simpa [List.filter, hk] using h
      injection h2 with hhead _
      injection hhead with h1 h3
      subst h1 h3
      simp [List.lookup]
    · have hr : rest.filter (fun kv => matchField "Count" kv.1) = [("count", v)] := by
        simpa [List.filter, hk] using h
      have hne : ("count" == k) = false := by
        rw [beq_eq_false_iff_ne]
        intro hc
        subst hc
        exact hk (by decide)
      simp [List.lookup, hne, ih hr]

theorem scanStats_valid (entries : List (String × Json)) (state : Int)
    (h : ∀ kv ∈ entries, ∃ ck n, kv.2 = Json.obj ck ∧ HasField "Count" "count" ck (.num n)
      ∧ minInt ≤ n ∧ n ≤ maxInt) :
    scanStats entries state = entries.map (fun kv => ⟨kv.1, nestedCount kv.2⟩) := by
  induction entries generalizing state with
  | nil => rfl
  | cons kv rest ih =>
    obtain ⟨k, x⟩ := kv
    obtain ⟨ck, n, hx, hf, hlo, hhi⟩ := h (k, x) (List.mem_cons_self _ _)
    simp only at hx
    subst hx
    have hc : (countState (.obj ck) state none).1 = n := by
      unfold countState
      rw [structValue_of_hasField _ _ _ _ _ _ _ hf]
      simp [intValue, hlo, hhi]
    have hn : nestedCount (.obj ck) = n := by
      simp [nestedCount, lookup_of_hasField ck _ hf]
    simp only [scanStats, List.map_cons, hc, hn]
    rw [ih n (fun kv hkv => h kv (List.mem_cons_of_mem _ hkv))]

theorem nodeLoop_slug (entries : List (String × Json)) (pipeline : PipelineStats)
    (state : Int) (slug : String)
    (hall : ∀ kv ∈ entries, kv.1 = "slug" → kv.2 = Json.str slug)
    (hex : pipeline.Slug = slug ∨ ∃ kv ∈ entries, kv.1 = "slug") :
    (nodeLoop entries pipeline state).1.Slug = slug := by
  induction entries generalizing pipeline state with
  | nil =>
    rcases hex with h | ⟨kv, hkv, _⟩
    · exact h
    · simp at hkv
  | cons head rest ih =>
    obtain ⟨k, x⟩ := head
    have hrest : ∀ kv ∈ rest, kv.1 = "slug" → kv.2 = Json.str slug :=
      fun kv hkv => hall kv (List.mem_cons_of_mem _ hkv)
    by_cases hk : k = "slug"
    · have hx : x = Json.str slug := hall (k, x) (List.mem_cons_self _ _) hk
      subst hx
      simp only [nodeLoop, hk, if_true]
      exact ih _ state hrest (Or.inl rfl)
    · simp only [nodeLoop, hk, if_false]
      apply ih _ _ hrest
      rcases hex with h | ⟨kv, hkv, hs⟩
      · exact Or.inl h
      · rcases List.mem_cons.mp hkv with heq | hmem
        · subst heq
          exact absurd hs hk
        · exact Or.inr ⟨kv, hmem, hs⟩

theorem value_eq_of_nodup_keys (l : List (String × Json)) (h : (l.map Prod.fst).Nodup)
    (k : String) (a c : Json) (ha : (k, a) ∈ l) (hc : (k, c) ∈ l) : a = c := by
  induction l with
  | nil => simp at ha
  | cons head rest ih =>
    obtain ⟨k', x⟩ := head
    simp only [List.map_cons, List.nodup_cons, List.mem_map, not_exists, not_and] at h
    obtain ⟨hnot, hnodup⟩ := h
    rcases List.mem_cons.mp ha with ha1 | ha2
    · rcases List.mem_cons.mp hc with hc1 | hc2
      · injection ha1 with _ h1
        injection hc1 with _ h2
        rw [h1, h2]
      · injection ha1 with h1 _
        exact absurd h1 (fun hk => hnot (k, c) hc2 hk)
    · rcases List.mem_cons.mp hc with hc1 | hc2
      · injection hc1 with h1 _
        exact absurd h1 (fun hk => hnot (k, a) ha2 hk)
      · exact ih hnodup ha2 hc2

theorem nodeLoop_valid (node entries : List (String × Json)) (state : Int)
    (hv : ValidNode node) (hp : entries.Perm node) :
    PipelineOf node (nodeLoop entries ⟨"", []⟩ state).1 := by
  obtain ⟨hnodup, ⟨slug, hslug⟩, hcounts⟩ := hv
  constructor
  · have hs : (nodeLoop entries ⟨"", []⟩ state).1.Slug = slug := by
      apply nodeLoop_slug
      · intro kv hkv hk
        obtain ⟨k, x⟩ := kv
        simp only at hk
        subst hk
        exact value_eq_of_nodup_keys node hnodup "slug" x _ (hp.subset hkv) hslug
      · exact Or.inr ⟨_, hp.symm.subset hslug, rfl⟩
    rw [hs]
    exact hslug
  · rw [(nodeLoop_scan entries ⟨"", []⟩ state).1, List.nil_append, scanStats_valid]
    · exact (hp.filter _).map _
    · intro kv hkv
      have hmem : kv ∈ entries := List.mem_of_mem_filter hkv
      have hne : kv.1 ≠ "slug" := by
        have := (List.mem_filter.mp hkv).2
        simpa using this
      exact hcounts kv (hp.subset hmem) hne

theorem edgeLoop_valid (order : Nat → GoMap → List (String × Json)) (hr : IsRange order)
    (nodes : List (List (String × Json))) (hv : ∀ node ∈ nodes, ValidNode node)
    (i : Nat) (pipelines : List PipelineStats) (state : Int) :
    ∃ ps, (edgeLoop order i nodes pipelines state).1 = pipelines ++ ps
      ∧ List.Forall₂ PipelineOf nodes ps := by
  induction nodes generalizing i pipelines state with
  | nil => exact ⟨[], by simp [edgeLoop], List.Forall₂.nil⟩
  | cons node rest ih =>
    obtain ⟨ps, hps, hall⟩ := ih (fun n hn => hv n (List.mem_cons_of_mem _ hn)) (i + 1)
      (pipelines ++ [(nodeLoop (order i node) ⟨"", []⟩ state).1])
      (nodeLoop (order i node) ⟨"", []⟩ state).2
    refine ⟨(nodeLoop (order i node) ⟨"", []⟩ state).1 :: ps, ?_, ?_⟩
    · simp only [edgeLoop]
      rw [hps]
      simp
    · exact List.Forall₂.cons
        (nodeLoop_valid node _ state (hv node (List.mem_cons_self _ _)) (hr i node)) hall

theorem mapInto_fresh (kvs : List (String × Json)) (m : GoMap)
    (hnodup : (kvs.map Prod.fst).Nodup)
    (hdisj : ∀ kv ∈ kvs, ∀ e ∈ m, e.1 ≠ kv.1) :
    mapInto kvs m = m ++ kvs := by
  induction kvs generalizing m with
  | nil => simp [mapInto]
  | cons head rest ih =>
    obtain ⟨k, x⟩ := head
    simp only [List.map_cons, List.nodup_cons, List.mem_map, not_exists, not_and] at hnodup
    obtain ⟨hnot, hnodup⟩ := hnodup
    have hset : mapSet m k x = m ++ [(k, x)] := by
      unfold mapSet
      have : m.any (fun e => decide (e.1 = k)) = false := by
        rw [List.any_eq_false]
        intro e he
        simpa using hdisj (k, x) (List.mem_cons_self _ _) e he
      simp [this]
    simp only [mapInto, hset]
    rw [ih _ hnodup]
    · simp
    · intro kv hkv e he
      rcases List.mem_append.mp he with h1 | h2
      · exact hdisj kv (List.mem_cons_of_mem _ hkv) e h1
      · simp only [List.mem_singleton] at h2
        subst h2
        intro heq
        exact hnot kv hkv heq.symm

theorem nodes_of_edges (edges : List Json) (nodes : List (List (String × Json)))
    (hnodes : List.Forall₂ EdgeOf edges nodes)
    (hnodup : ∀ node ∈ nodes, (node.map Prod.fst).Nodup) :
    edges.map (fun edge => (structValue "Node" mapValue edge [] none).1) = nodes := by
  induction hnodes with
  | nil => rfl
  | cons hedge _ ih =>
    obtain ⟨ek, rfl, hf⟩ := hedge
    rw [List.map_cons, ih (fun n hn => hnodup n (List.mem_cons_of_mem _ hn))]
    congr 1
    rw [structValue_of_hasField _ _ _ _ _ _ _ hf]
    simp only [mapValue]
    rw [mapInto_fresh _ _ (hnodup _ (List.mem_cons_self _ _)) (by simp)]
    rfl

theorem buildStatsBody_of_path (top d o p : List (String × Json)) (edges : List Json)
    (nodes : List (List (String × Json)))
    (hdata : HasField "data" "data" top (.obj d))
    (horg : HasField "organization" "organization" d (.obj o))
    (hpipes : HasField "pipelines" "pipelines" o (.obj p))
    (hedges : HasField "edges" "edges" p (.arr edges))
    (hnodes : List.Forall₂ EdgeOf edges nodes)
    (hnodup : ∀ node ∈ nodes, (node.map Prod.fst).Nodup) :
    (Unmarshal buildStatsBody (some (.obj top)) Slice.nil).1.elems = nodes := by
  unfold Unmarshal buildStatsBody
  simp only []
  rw [structValue_of_hasField _ _ _ _ _ _ _ hdata, structValue_of_hasField _ _ _ _ _ _ _ horg,
    structValue_of_hasField _ _ _ _ _ _ _ hpipes, structValue_of_hasField _ _ _ _ _ _ _ hedges,
    sliceValue_fresh [] _ (structValue_blind "Node" _ mapValue_blind)]
  exact nodes_of_edges edges nodes hnodes hnodup

/-- C2: for every valid aggregate response (the path `data`, `organization`,
`pipelines`, `edges` ends in an array of `N` edges, each with a node that has
no key twice, a string slug, and under every other key an object with an
integer count), `fetch` returns no error and `N` pipelines; the `i`-th has
the slug of the `i`-th node and, in some order, one stat per non-slug key
of that node, with the key as state and the nested count as count. -/
theorem fetch_valid_response (w : World) (e : Exporter) (S : List String)
    (top d o p : List (String × Json)) (edges : List Json)
    (nodes : List (List (String × Json)))
    (hrange : IsRange w.order)
    (hS : (fetchStateTypes w e).1 = .ok S)
    (hnet : w.net 1 (aggregateRequest w e S) = .ok (some (.obj top)))
    (hdata : HasField "data" "data" top (.obj d))
    (horg : HasField "organization" "organization" d (.obj o))
    (hpipes : HasField "pipelines" "pipelines" o (.obj p))
    (hedges : HasField "edges" "edges" p (.arr edges))
    (hnodes : List.Forall₂ EdgeOf edges nodes)
    (hvalid : ∀ node ∈ nodes, ValidNode node) :
    ∃ P, (fetch w e).1 = .ok P ∧ P.length = edges.length
      ∧ List.Forall₂ (fun node pipeline =>
          ("slug", Json.str pipeline.Slug) ∈ node
            ∧ pipeline.Stats.Perm
                ((node.filter (fun kv => kv.1 ≠ "slug")).map
                  (fun kv => ⟨kv.1, nestedCount kv.2⟩))) nodes P := by
  have hbody := buildStatsBody_of_path top d o p edges nodes hdata horg hpipes hedges hnodes
    (fun node hn => (hvalid node hn).1)
  obtain ⟨ps, hps, hall⟩ := edgeLoop_valid w.order hrange nodes hvalid 0 [] 0
  refine ⟨ps, ?_, ?_, hall⟩
  · rw [fetch_of_states w e S hS, hnet]
    simp only [hbody, hps, List.nil_append]
  · rw [← hall.length_eq, hnodes.length_eq]

theorem webNode_valid : ValidNode webNode := by
  refine ⟨by decide, ⟨"web", by simp [webNode]⟩, ?_⟩
  intro kv hkv hne
  simp only [webNode, List.mem_cons, List.mem_singleton, List.not_mem_nil, or_false] at hkv
  rcases hkv with h | h | h
  · subst h
    exact absurd rfl hne
  · subst h
    exact ⟨_, 5, rfl, rfl, by decide, by decide⟩
  · subst h
    exact ⟨_, 2, rfl, rfl, by decide, by decide⟩

theorem fetch_valid_response_witness :
    IsRange demoWorld.order
      ∧ (fetchStateTypes demoWorld demoExporter).1 = .ok ["PASSED", "FAILED"]
      ∧ demoWorld.net 1 (aggregateRequest demoWorld demoExporter ["PASSED", "FAILED"])
          = .ok (some demoStats)
      ∧ ValidNode webNode
      ∧ ∃ P, (fetch demoWorld demoExporter).1 = .ok P ∧ P.length = 1
        ∧ List.Forall₂ (fun node pipeline =>
            ("slug", Json.str pipeline.Slug) ∈ node
              ∧ pipeline.Stats.Perm
                  ((node.filter (fun kv => kv.1 ≠ "slug")).map
                    (fun kv => ⟨kv.1, nestedCount kv.2⟩))) [webNode] P :=
  ⟨fun _ m => List.Perm.refl m, rfl, rfl, webNode_valid,
    fetch_valid_response demoWorld demoExporter ["PASSED", "FAILED"] _ _ _ _
      [.obj [("node", .obj webNode)]] [webNode]
      (fun _ m => List.Perm.refl m) rfl rfl rfl rfl rfl rfl
      (List.Forall₂.cons ⟨_, rfl, rfl⟩ List.Forall₂.nil)
      (fun node hn => by
        rw [List.mem_singleton] at hn
        subst hn
        exact webNode_valid)⟩

/-! ## The example of the specification -/

theorem perm_pair_cases {α : Type} (a b : α) (l : List α) (h : l.Perm [a, b]) :
    l = [a, b] ∨ l = [b, a] := by
  have hlen : l.length = 2 := h.length_eq
  obtain ⟨x, y, rfl⟩ := List.length_eq_two.mp hlen
  have hx : x = a ∨ x = b := by simpa using h.subset (List.mem_cons_self x [y])
  have hy : y = a ∨ y = b := by
    simpa using h.subset (List.mem_cons_of_mem x (List.mem_cons_self y []))
  have ha : a = x ∨ a = y := by simpa using h.symm.subset (List.mem_cons_self a [b])
  have hb : b = x ∨ b = y := by
    simpa using h.symm.subset (List.mem_cons_of_mem a (List.mem_cons_self b []))
  rcases hx with rfl | rfl
  · rcases hy with rfl | rfl
    · rcases hb with rfl | rfl <;> exact Or.inl rfl
    · exact Or.inl rfl
  · rcases hy with rfl | rfl
    · exact Or.inr rfl
    · rcases ha with rfl | rfl <;> exact Or.inl rfl

/-- C7, as the claim states it, fails: with a `range` that starts at the
third entry of the node map, `fetch` returns the failed stat before the
passed one. -/
theorem fetch_example_order_counterexample :
    IsRange rotatedWorld.order
      ∧ (fetchStateTypes rotatedWorld demoExporter).1 = .ok ["PASSED", "FAILED"]
      ∧ rotatedWorld.net 1 (aggregateRequest rotatedWorld demoExporter ["PASSED", "FAILED"])
          = .ok (some demoStats)
      ∧ (fetch rotatedWorld demoExporter).1
          = .ok [⟨"web", [⟨"failed", 2⟩, ⟨"passed", 5⟩]⟩]
      ∧ (fetch rotatedWorld demoExporter).1
          ≠ .ok [⟨"web", [⟨"passed", 5⟩, ⟨"failed", 2⟩]⟩] := by
  have hf : (fetch rotatedWorld demoExporter).1
      = .ok [⟨"web", [⟨"failed", 2⟩, ⟨"passed", 5⟩]⟩] := rfl
  refine ⟨fun _ m => List.rotate_perm m 2, rfl, rfl, hf, ?_⟩
  rw [hf]
  intro h
  injection h with h
  simp at h

/-- C7, amended: with discovery returning `PASSED` and `FAILED` and an
aggregate response whose edges are the single edge of the pipeline `web`
with 5 passed and 2 failed builds, `fetch` returns one pipeline with slug
`web` whose stats are the passed stat with count 5 and the failed stat with
count 2, in one order or the other. -/
theorem fetch_example (w : World) (e : Exporter)
    (top d o p : List (String × Json)) (edge : Json)
    (hrange : IsRange w.order)
    (hS : (fetchStateTypes w e).1 = .ok ["PASSED", "FAILED"])
    (hnet : w.net 1 (aggregateRequest w e ["PASSED", "FAILED"]) = .ok (some (.obj top)))
    (hdata : HasField "data" "data" top (.obj d))
    (horg : HasField "organization" "organization" d (.obj o))
    (hpipes : HasField "pipelines" "pipelines" o (.obj p))
    (hedges : HasField "edges" "edges" p (.arr [edge]))
    (hedge : EdgeOf edge
      [("slug", .str "web"), ("passed", .obj [("count", .num 5)]),
       ("failed", .obj [("count", .num 2)])]) :
    (fetch w e).1 = .ok [⟨"web", [⟨"passed", 5⟩, ⟨"failed", 2⟩]⟩]
      ∨ (fetch w e).1 = .ok [⟨"web", [⟨"failed", 2⟩, ⟨"passed", 5⟩]⟩] := by
  have hvalid : ∀ node ∈ [webNode], ValidNode node := by
    intro node hn
    rw [List.mem_singleton] at hn
    subst hn
    exact webNode_valid
  have hbody := buildStatsBody_of_path top d o p [edge] [webNode] hdata horg hpipes hedges
    (List.Forall₂.cons hedge List.Forall₂.nil) (fun node hn => (hvalid node hn).1)
  obtain ⟨ps, hps, hall⟩ := edgeLoop_valid w.order hrange [webNode] hvalid 0 [] 0
  have hf : (fetch w e).1 = .ok ps := by
    rw [fetch_of_states w e _ hS, hnet]
    simp only [hbody, hps, List.nil_append]
  cases hall with
  | cons hhead htail =>
    cases htail
    obtain ⟨hslug, hstats⟩ := hhead
    rename_i pipeline
    obtain ⟨slug, stats⟩ := pipeline
    have hweb : slug = "web" := by
      simpa [webNode] using hslug
    subst hweb
    have hperm : stats.Perm [⟨"passed", 5⟩, ⟨"failed", 2⟩] := hstats
    rcases perm_pair_cases _ _ stats hperm with h | h
    · subst h
      exact Or.inl hf
    · subst h
      exact Or.inr hf

theorem fetch_example_witness :
    IsRange demoWorld.order
      ∧ (fetchStateTypes demoWorld demoExporter).1 = .ok ["PASSED", "FAILED"]
      ∧ demoWorld.net 1 (aggregateRequest demoWorld demoExporter ["PASSED", "FAILED"])
          = .ok (some demoStats)
      ∧ ((fetch demoWorld demoExporter).1 = .ok [⟨"web", [⟨"passed", 5⟩, ⟨"failed", 2⟩]⟩]
        ∨ (fetch demoWorld demoExporter).1 = .ok [⟨"web", [⟨"failed", 2⟩, ⟨"passed", 5⟩]⟩]) :=
  ⟨fun _ m => List.Perm.refl m, rfl, rfl,
    fetch_example demoWorld demoExporter _ _ _ _ (.obj [("node", .obj webNode)])
      (fun _ m => List.Perm.refl m) rfl rfl rfl rfl rfl rfl ⟨_, rfl, rfl⟩⟩

/-! ## Two scrapes of the same responses -/

/-- C6: two scrapes that receive the same responses, an aggregate response
in which the failed builds of the pipeline `web` are `null`, and differ only
in the order of `range`, do not send the same samples: one sends the value 5
for the failed builds, the other the value 0. -/
theorem scrape_depends_on_range_order :
    IsRange staleWorld.order ∧ IsRange rotatedStaleWorld.order
      ∧ staleWorld.net = rotatedStaleWorld.net
      ∧ (Collect staleWorld demoExporter []).2
          = [Metric.buildsTotal 5 "passed" "web", Metric.buildsTotal 5 "failed" "web",
              Metric.totalScrapes 0, Metric.scrapeErrors 0]
      ∧ (Collect rotatedStaleWorld demoExporter []).2
          = [Metric.buildsTotal 0 "failed" "web", Metric.buildsTotal 5 "passed" "web",
              Metric.totalScrapes 0, Metric.scrapeErrors 0]
      ∧ Metric.buildsTotal 5 "failed" "web" ∈ (Collect staleWorld demoExporter []).2
      ∧ Metric.buildsTotal 5 "failed" "web" ∉ (Collect rotatedStaleWorld demoExporter []).2 := by
  have hA : (Collect staleWorld demoExporter []).2
      = [Metric.buildsTotal 5 "passed" "web", Metric.buildsTotal 5 "failed" "web",
          Metric.totalScrapes 0, Metric.scrapeErrors 0] := rfl
  have hB : (Collect rotatedStaleWorld demoExporter []).2
      = [Metric.buildsTotal 0 "failed" "web", Metric.buildsTotal 5 "passed" "web",
          Metric.totalScrapes 0, Metric.scrapeErrors 0] := rfl
  refine ⟨fun _ m => List.Perm.refl m, fun _ m => List.rotate_perm m 2, rfl, hA, hB, ?_, ?_⟩
  · rw [hA]
    simp
  · rw [hB]
    simp

/-! ## The assembled query -/

theorem occ_skip (pat : List Char) (L X : List Char) (h : 'b' ∉ L) :
    occurrencesFrom ('b' :: pat) (L ++ X) = occurrencesFrom ('b' :: pat) X := by
  induction L with
  | nil => rfl
  | cons c rest ih =>
    have hc : ('b' == c) = false := by
      rw [beq_eq_false_iff_ne]
      intro hbc
      exact h (by rw [← hbc]; exact List.mem_cons_self _ _)
    simp only [List.cons_append, occurrencesFrom, List.isPrefixOf, hc, Bool.false_and]
    simpa using ih (fun hm => h (List.mem_cons_of_mem _ hm))

theorem isPrefixOf_paren (B A u : List Char) (r : Char) (rest : List Char)
    (hu : '(' ∉ u) (hrB : r ∉ B) (hr : r ≠ '(') :
    (B ++ '(' :: A).isPrefixOf (u ++ r :: rest) = false := by
  induction B generalizing u with
  | nil =>
    cases u with
    | nil =>
      have : ('(' == r) = false := by
        rw [beq_eq_false_iff_ne]
        exact fun h => hr h.symm
      simp [List.isPrefixOf, this]
    | cons c u' =>
      have : ('(' == c) = false := by
        rw [beq_eq_false_iff_ne]
        intro h
        exact hu (by rw [h]; exact List.mem_cons_self _ _)
      simp [List.isPrefixOf, this]
  | cons b B' ih =>
    cases u with
    | nil =>
      have : (b == r) = false := by
        rw [beq_eq_false_iff_ne]
        intro h
        exact hrB (by rw [h]; exact List.mem_cons_self _ _)
      simp [List.isPrefixOf, this]
    | cons c u' =>
      have := ih u' (fun h => hu (List.mem_cons_of_mem _ h))
        (fun h => hrB (List.mem_cons_of_mem _ h))
      simp [List.isPrefixOf, this]

theorem occ_seg (B A u : List Char) (r : Char) (rest : List Char)
    (hu : '(' ∉ u) (hrB : r ∉ B) (hr : r ≠ '(') :
    occurrencesFrom (B ++ '(' :: A) (u ++ r :: rest)
      = occurrencesFrom (B ++ '(' :: A) (r :: rest) := by
  induction u with
  | nil => rfl
  | cons c u' ih =>
    rw [List.cons_append, occurrencesFrom]
    have h := isPrefixOf_paren B A (c :: u') r rest hu hrB hr
    rw [List.cons_append] at h
    rw [h, ih (fun hm => hu (List.mem_cons_of_mem _ hm))]
    simp

theorem fieldText_data :
    fieldText.data
      = ['b', 'u', 'i', 'l', 'd', 's'] ++ '(' :: ['s', 't', 'a', 't', 'e', ':', ' '] :=
  rfl

theorem occ_lit (lit : String) (X : List Char) (h : 'b' ∉ lit.data) :
    occurrencesFrom fieldText.data (lit.data ++ X) = occurrencesFrom fieldText.data X :=
  occ_skip _ lit.data X h

theorem occ_var (u : List Char) (r : Char) (tl X : List Char) (hu : '(' ∉ u)
    (hrB : r ∉ ['b', 'u', 'i', 'l', 'd', 's']) (hr : r ≠ '(') :
    occurrencesFrom fieldText.data (u ++ (r :: tl ++ X))
      = occurrencesFrom fieldText.data (r :: tl ++ X) := by
  rw [fieldText_data]
  exact occ_seg _ _ u r (tl ++ X) hu hrB hr

theorem occ_var_lit (u : List Char) (lit : String) (X : List Char) (hu : '(' ∉ u)
    (h : ∃ r tl, lit.data = r :: tl ∧ r ∉ ['b', 'u', 'i', 'l', 'd', 's'] ∧ r ≠ '(') :
    occurrencesFrom fieldText.data (u ++ (lit.data ++ X))
      = occurrencesFrom fieldText.data (lit.data ++ X) := by
  obtain ⟨r, tl, hd, hrB, hr⟩ := h
  rw [hd]
  exact occ_var u r tl X hu hrB hr

theorem occ_field (W : List Char) :
    occurrencesFrom fieldText.data (fieldText.data ++ W)
      = 1 + occurrencesFrom fieldText.data W := by
  have h := occ_skip ['u', 'i', 'l', 'd', 's', '(', 's', 't', 'a', 't', 'e', ':', ' ']
    ['u', 'i', 'l', 'd', 's', '(', 's', 't', 'a', 't', 'e', ':', ' '] W (by decide)
  show occurrencesFrom fieldText.data
      ('b' :: (['u', 'i', 'l', 'd', 's', '(', 's', 't', 'a', 't', 'e', ':', ' '] ++ W)) = _
  rw [occurrencesFrom]
  have hp : fieldText.data.isPrefixOf
      ('b' :: (['u', 'i', 'l', 'd', 's', '(', 's', 't', 'a', 't', 'e', ':', ' '] ++ W))
        = true := by
    simp [fieldText, List.isPrefixOf]
  rw [hp]
  simp only [if_true]
  exact congrArg (1 + ·) h

theorem occ_line (ToLower : String → String) (s : String) (Z : List Char)
    (hs : '(' ∉ s.data) (hl : '(' ∉ (ToLower s).data) :
    occurrencesFrom fieldText.data ((stateLine ToLower s).data ++ Z)
      = 1 + occurrencesFrom fieldText.data Z := by
  have hshape : (stateLine ToLower s).data ++ Z
      = (ToLower s).data ++ ((": " : String).data ++ (fieldText.data ++ (s.data ++
          ((") \x7b count \x7d\n" : String).data ++ Z)))) := by
    simp [stateLine, fieldText, String.data_append]
  rw [hshape,
    occ_var_lit (ToLower s).data ": " _ hl ⟨':', [' '], rfl, by decide, by decide⟩,
    occ_lit ": " _ (by decide), occ_field,
    occ_var_lit s.data ") \x7b count \x7d\n" Z hs ⟨')', _, rfl, by decide, by decide⟩,
    occ_lit ") \x7b count \x7d\n" Z (by decide)]

theorem occ_lines (ToLower : String → String) (S : List String) (Z : List Char)
    (h : ∀ s ∈ S, '(' ∉ s.data ∧ '(' ∉ (ToLower s).data) :
    occurrencesFrom fieldText.data ((String.join (S.map (stateLine ToLower))).data ++ Z)
      = S.length + occurrencesFrom fieldText.data Z := by
  induction S with
  | nil => simp [String.join]
  | cons s rest ih =>
    rw [List.map_cons, join_cons, String.data_append, List.append_assoc,
      occ_line ToLower s _ (h s (List.mem_cons_self _ _)).1 (h s (List.mem_cons_self _ _)).2,
      ih (fun x hx => h x (List.mem_cons_of_mem _ hx)), List.length_cons]
    omega

theorem occ_query (ToLower : String → String) (organization : String) (S : List String)
    (horg : '(' ∉ organization.data)
    (h : ∀ s ∈ S, '(' ∉ s.data ∧ '(' ∉ (ToLower s).data) :
    occurrences fieldText
        (buildStatsQuery organization (String.join (S.map (stateLine ToLower))))
      = S.length := by
  have htail : occurrencesFrom fieldText.data queryTail.data = 0 := by
    have := occ_lit queryTail [] (by decide)
    simpa [occurrencesFrom] using this
  unfold occurrences buildStatsQuery
  simp only [String.data_append, List.append_assoc]
  rw [occ_lit queryHead _ (by decide),
    occ_var_lit organization.data queryMiddle _ horg ⟨'"', _, rfl, by decide, by decide⟩,
    occ_lit queryMiddle _ (by decide), occ_lines ToLower S _ h, htail]
  rfl

set_option maxRecDepth 100000

/-- C1, as the claim states it, fails: when discovery returns the single
state name `A) { count } b: builds(state: B`, the aggregate query `fetch`
sends has three `builds(state: ` fields, not one. -/
theorem fetch_statesQuery_counterexample :
    (fetchStateTypes injectWorld demoExporter).1
        = .ok ["A) \x7b count \x7d b: builds(state: B"]
      ∧ (fetch injectWorld demoExporter).2.map
          (fun r => occurrences "builds(state: " r.payload.Query) = [0, 3]
      ∧ ∃ r, (fetch injectWorld demoExporter).2[1]? = some r
          ∧ occurrences "builds(state: " r.payload.Query
              ≠ ["A) \x7b count \x7d b: builds(state: B"].length := by
  have hocc : (fetch injectWorld demoExporter).2.map
      (fun r => occurrences "builds(state: " r.payload.Query) = [0, 3] := by decide
  refine ⟨rfl, hocc, (aggregateRequest injectWorld demoExporter
    ["A) \x7b count \x7d b: builds(state: B"]), rfl, ?_⟩
  decide

/-- C1, amended: for every list `S` of discovered states, the fragment
`fetch` puts into the aggregate query is the concatenation, in the order of
`S`, of one line `lower(s): builds(state: s) { count }` per element, empty
when `S` is; the aggregate request is a POST of the query template with the
organization and this fragment in place of its verbs; and when neither the
organization nor any state name or its lower-cased form contains an opening
parenthesis, the query has exactly one `builds(state: ` field per element
of `S`, none when `S` is empty. -/
theorem fetch_statesQuery_lines (w : World) (e : Exporter) (S : List String)
    (h : (fetchStateTypes w e).1 = .ok S) :
    statesQueryLoop w.ToLower S ""
        = String.join (S.map (fun s =>
            w.ToLower s ++ ": builds(state: " ++ s ++ ") \x7b count \x7d\n"))
      ∧ (S = [] → statesQueryLoop w.ToLower S "" = "")
      ∧ (fetch w e).2 =
          [{ method := "POST", url := e.URL,
             header := [("Content-Type", "application/json"),
               ("Authorization", "Bearer " ++ e.Token)],
             payload := ⟨"\n\t\x7b\n\t\t__type(name:\"BuildStates\") \x7b\n\t\t\tenumValues \x7b\n\t\t\t\tname\n\t\t\t\x7d\n\t\t\x7d\n\t\x7d\n\t"⟩ },
           { method := "POST", url := e.URL,
             header := [("Content-Type", "application/json"),
               ("Authorization", "Bearer " ++ e.Token)],
             payload := ⟨"\n\tquery BuildStatsQuery \x7b\n\t\torganization(slug: \"" ++ e.Organization ++
               "\") \x7b\n\t\t\tpipelines(first: 100) \x7b\n\t\t\t\tcount\n\t\t\t\tpageInfo \x7b\n\t\t\t\t\thasNextPage\n\t\t\t\t\thasPreviousPage\n\t\t\t\t\x7d\n\t\t\t\tedges \x7b\n\t\t\t\t\tnode \x7b\n\t\t\t\t\t\tslug\n\t\t\t\t\t\t" ++
               String.join (S.map (fun s =>
                 w.ToLower s ++ ": builds(state: " ++ s ++ ") \x7b count \x7d\n")) ++
               "\n\t\t\t\t\t\x7d\n\t\t\t\t\x7d\n\t\t\t\x7d\n\t\t\x7d\n\t\x7d\n\t"⟩ }]
      ∧ ('(' ∉ e.Organization.data →
          (∀ s ∈ S, '(' ∉ s.data ∧ '(' ∉ (w.ToLower s).data) →
          ∀ r, (fetch w e).2[1]? = some r →
            occurrences "builds(state: " r.payload.Query = S.length) := by
  have hline : (fun s => w.ToLower s ++ ": builds(state: " ++ s ++ ") \x7b count \x7d\n")
      = stateLine w.ToLower := rfl
  have hq : statesQueryLoop w.ToLower S ""
      = String.join (S.map (fun s =>
          w.ToLower s ++ ": builds(state: " ++ s ++ ") \x7b count \x7d\n")) := by
    rw [statesQueryLoop_eq, hline]
    simp
  have hreq : (fetch w e).2 = [discoveryRequest e, aggregateRequest w e S] := by
    rw [fetch_of_states w e S h]
    cases w.net 1 (aggregateRequest w e S) <;> rfl
  refine ⟨hq, ?_, ?_, ?_⟩
  · intro hS
    subst hS
    rfl
  · rw [hreq, ← hq]
    rfl
  · intro horg hS r hr
    rw [hreq] at hr
    simp only [List.getElem?_cons_succ, List.getElem?_cons_zero, Option.some.injEq] at hr
    subst hr
    have := occ_query w.ToLower e.Organization S horg hS
    rw [← hline, ← hq] at this
    exact this

theorem fetch_statesQuery_lines_witness :
    (fetchStateTypes demoWorld demoExporter).1 = .ok ["PASSED", "FAILED"]
      ∧ '(' ∉ demoExporter.Organization.data
      ∧ (∀ s ∈ ["PASSED", "FAILED"], '(' ∉ s.data ∧ '(' ∉ (demoWorld.ToLower s).data)
      ∧ occurrences "builds(state: "
          (aggregateRequest demoWorld demoExporter ["PASSED", "FAILED"]).payload.Query = 2 :=
  ⟨rfl, by decide, by decide,
    (fetch_statesQuery_lines demoWorld demoExporter ["PASSED", "FAILED"] rfl).2.2.2
      (by decide) (by decide) _ rfl⟩

/-! ## The scrape counters -/

/-- C3: `Collect` never changes the total-scrapes counter: no path of
`Collect` or `scrape` increments it, whether the fetch succeeds or fails. -/
theorem Collect_totalScrapes_unchanged (w : World) (e : Exporter) (ch : List Metric) :
    (Collect w e ch).1.totalScrapes = e.totalScrapes := by
  unfold Collect scrape
  cases (fetch w e).1 <;> rfl

/-- C4: when the discovery call fails, `fetch` returns that error and has
issued the discovery request only; `scrape` sends nothing and adds one to the
scrape-errors counter, and `Collect` sends the two counters only. -/
theorem discovery_failure (w : World) (e : Exporter) (ch : List Metric) (err : GoError)
    (h : w.net 0 (discoveryRequest e) = .error err) :
    fetch w e = (.error err, [discoveryRequest e])
      ∧ scrape w e ch = ({ e with scrapeErrors := e.scrapeErrors + 1 }, ch)
      ∧ (Collect w e ch).2 = ch ++
          [Metric.totalScrapes e.totalScrapes, Metric.scrapeErrors (e.scrapeErrors + 1)] := by
  have hs : (fetchStateTypes w e).1 = .error err := by
    unfold fetchStateTypes doGraphQlRequest
    unfold discoveryRequest at h
    simp only [h]
  have hf := fetch_of_error w e err hs
  refine ⟨hf, ?_, ?_⟩
  · unfold scrape
    rw [hf]
  · unfold Collect scrape
    rw [hf]

theorem discovery_failure_witness :
    downWorld.net 0 (discoveryRequest demoExporter)
        = .error (.transport "connection refused")
      ∧ (fetch downWorld demoExporter
          = (.error (.transport "connection refused"), [discoveryRequest demoExporter])
        ∧ scrape downWorld demoExporter []
          = ({ demoExporter with scrapeErrors := demoExporter.scrapeErrors + 1 }, [])
        ∧ (Collect downWorld demoExporter []).2 = [] ++
            [Metric.totalScrapes demoExporter.totalScrapes,
              Metric.scrapeErrors (demoExporter.scrapeErrors + 1)]) :=
  ⟨rfl, discovery_failure downWorld demoExporter [] (.transport "connection refused") rfl⟩

theorem droppedBits_small (a : Nat) (h : a < 2 ^ 53) : droppedBits a = 0 := by
  unfold droppedBits
  rw [List.length_eq_zero, List.filter_eq_nil_iff]
  intro k _
  have hk : 2 ^ 53 ≤ 2 ^ (53 + k) := Nat.pow_le_pow_right (by decide) (Nat.le_add_right 53 k)
  simp only [decide_eq_true_eq, not_le]
  omega

theorem roundFloat64_exact (a : Nat) (h : a ≤ 2 ^ 53) : roundFloat64 a = a := by
  rcases Nat.lt_or_eq_of_le h with hlt | heq
  · unfold roundFloat64
    rw [droppedBits_small a hlt]
    simp [Nat.mod_one]
  · subst heq
    decide

theorem float64_exact (n : Int) (h : n.natAbs ≤ 2 ^ 53) : float64 n = n := by
  unfold float64
  rw [roundFloat64_exact n.natAbs h]
  split <;> omega

/-- C8, as the claim states it, fails: for a pipeline with
9007199254740993 passed builds `fetch` returns that count, and the sample
`Collect` sends has the value 9007199254740992, the nearest `float64`. -/
theorem Collect_value_counterexample :
    (fetch bigWorld demoExporter).1 = .ok [⟨"web", [⟨"passed", 9007199254740993⟩]⟩]
      ∧ (Collect bigWorld demoExporter []).2
          = [Metric.buildsTotal 9007199254740992 "passed" "web",
              Metric.totalScrapes 0, Metric.scrapeErrors 0]
      ∧ Metric.buildsTotal 9007199254740993 "passed" "web"
          ∉ (Collect bigWorld demoExporter []).2 := by
  have hc : (Collect bigWorld demoExporter []).2
      = [Metric.buildsTotal 9007199254740992 "passed" "web",
          Metric.totalScrapes 0, Metric.scrapeErrors 0] := rfl
  refine ⟨rfl, hc, ?_⟩
  rw [hc]
  simp

/-- C8, amended: when `fetch` succeeds with the pipelines `P`, `Collect`
sends one build-count sample per pipeline and stat of `P`, in order, with
the `float64` of the stat's count as value and the stat's state and the
pipeline's slug as labels, then the two counters, neither of them changed;
the value is the count itself when no count of `P` exceeds `2^53` in
absolute value; with no pipeline it sends the two counters only. -/
theorem Collect_of_fetch_ok (w : World) (e : Exporter) (ch : List Metric)
    (P : List PipelineStats) (h : (fetch w e).1 = .ok P) :
    Collect w e ch = (e, ch
        ++ P.flatMap (fun pipeline => pipeline.Stats.map
            (fun stat => Metric.buildsTotal (float64 stat.Count) stat.State pipeline.Slug))
        ++ [Metric.totalScrapes e.totalScrapes, Metric.scrapeErrors e.scrapeErrors])
      ∧ ((∀ pipeline ∈ P, ∀ stat ∈ pipeline.Stats, stat.Count.natAbs ≤ 2 ^ 53) →
          Collect w e ch = (e, ch
            ++ P.flatMap (fun pipeline => pipeline.Stats.map
                (fun stat => Metric.buildsTotal stat.Count stat.State pipeline.Slug))
            ++ [Metric.totalScrapes e.totalScrapes, Metric.scrapeErrors e.scrapeErrors]))
      ∧ (P = [] → Collect w e [] =
          (e, [Metric.totalScrapes e.totalScrapes, Metric.scrapeErrors e.scrapeErrors])) := by
  have hc : ∀ ch', Collect w e ch' = (e, ch'
        ++ P.flatMap (fun pipeline => pipeline.Stats.map
            (fun stat => Metric.buildsTotal (float64 stat.Count) stat.State pipeline.Slug))
        ++ [Metric.totalScrapes e.totalScrapes, Metric.scrapeErrors e.scrapeErrors]) := by
    intro ch'
    unfold Collect scrape
    rw [h]
    simp only [sendPipelines_eq]
  refine ⟨hc ch, ?_, ?_⟩
  · intro hsmall
    rw [hc]
    have hmap : P.flatMap (fun pipeline => pipeline.Stats.map
          (fun stat => Metric.buildsTotal (float64 stat.Count) stat.State pipeline.Slug))
        = P.flatMap (fun pipeline => pipeline.Stats.map
          (fun stat => Metric.buildsTotal stat.Count stat.State pipeline.Slug)) := by
      unfold List.flatMap
      congr 1
      apply List.map_congr_left
      intro pipeline hp
      apply List.map_congr_left
      intro stat hstat
      rw [float64_exact stat.Count (hsmall pipeline hp stat hstat)]
    rw [hmap]
  · intro hP
    subst hP
    rw [hc]
    rfl

theorem Collect_of_fetch_ok_witness :
    (fetch demoWorld demoExporter).1 = .ok [⟨"web", [⟨"passed", 5⟩, ⟨"failed", 2⟩]⟩]
      ∧ Collect demoWorld demoExporter []
          = (demoExporter, [Metric.buildsTotal 5 "passed" "web",
              Metric.buildsTotal 2 "failed" "web",
              Metric.totalScrapes 0, Metric.scrapeErrors 0]) :=
  ⟨rfl, (Collect_of_fetch_ok demoWorld demoExporter []
    [⟨"web", [⟨"passed", 5⟩, ⟨"failed", 2⟩]⟩] rfl).1⟩

end Buildkite
